import Mathlib

/-!
Shallow embedding of `convert-label-tests.py`, a one-shot source-to-source
rewriter that converts `createElement(Label, ...)` calls into JSX text.

Text is modelled as `List Char`.  Pass 1 (`sub1`) models the global
`re.sub` on the simple-call pattern; Pass 2 (`pass2`) models the
line-scanning structured-call rewriter.  Regular expressions are modelled
by deterministic matchers: both patterns in the script are free of real
backtracking (every starred / plus-quantified class is followed by a
character it cannot match), so matching at a given position is a function,
and `re.sub` / `re.search` scan candidate start positions left to right.
-/

namespace ConvertLabelTests

/-- Python `\s` (whitespace class), restricted to the ASCII range; all
inputs the script manipulates are ASCII. -/
def isPySpace (c : Char) : Bool :=
  c == ' ' || c == '\t' || c == '\n' || c == '\r' || c == '\x0b' || c == '\x0c'

/-- `notQuote c` holds when `c` is not a double quote (the class `[^"]`). -/
def notQuote (c : Char) : Bool := !(c == '"')

/-- `notRBrace c` holds when `c` is not a right brace (the class `[^}]`). -/
def notRBrace (c : Char) : Bool := !(c == '\x7d')

/-- `notColon c` holds when `c` is not a colon. -/
def notColon (c : Char) : Bool := !(c == ':')

/-- Match a literal character sequence at the head of the input; on success
return the remainder. -/
def dropLit : List Char → List Char → Option (List Char)
  | [], s => some s
  | _ :: _, [] => none
  | p :: ps, c :: cs => if c == p then dropLit ps cs else none

/-- Does `p` occur at the head of `s`? -/
def startsWith : List Char → List Char → Bool
  | [], _ => true
  | _ :: _, [] => false
  | p :: ps, c :: cs => c == p && startsWith ps cs

/-- Python substring containment (`p in s`). -/
def hasSub (p : List Char) : List Char → Bool
  | [] => p.isEmpty
  | c :: cs => startsWith p (c :: cs) || hasSub p cs

/-- Tail of the simple-pattern matcher: after `createElement(Label,\s*null,\s*"`
has been consumed, match `([^"]+)"\)` and return the capture and the
remainder after the match. -/
def quoteParen (s : List Char) : Option (List Char × List Char) :=
  if (s.takeWhile notQuote).isEmpty then none
  else
    match s.dropWhile notQuote with
    | '"' :: ')' :: r => some (s.takeWhile notQuote, r)
    | _ => none

/-- Matcher for Pattern 1, `createElement\(Label,\s*null,\s*"([^"]+)"\)`,
anchored at the head of `s`.  On success returns the capture group and the
remainder of the input after the whole match. -/
def matchSimpleAt (s : List Char) : Option (List Char × List Char) :=
  match dropLit "createElement(Label,".toList s with
  | none => none
  | some s1 =>
    match dropLit "null,".toList (s1.dropWhile isPySpace) with
    | none => none
    | some s2 =>
      match s2.dropWhile isPySpace with
      | '"' :: s3 => quoteParen s3
      | _ => none

/-- The replacement text `<Label>\1</Label>` of Pattern 1. -/
def simpleRepl (cap : List Char) : List Char :=
  "<Label>".toList ++ cap ++ "</Label>".toList

/-- The canonical simple-call text `createElement(Label, null, "txt")`. -/
def simpleCall (txt : List Char) : List Char :=
  "createElement(Label, null, \"".toList ++ txt ++ "\")".toList

/-- One fuelled step of the `re.sub` scan: at each position, if Pattern 1
matches, emit the replacement and continue after the match; otherwise emit
the head character and continue one position later. -/
def sub1Go : Nat → List Char → List Char
  | 0, s => s
  | _ + 1, [] => []
  | fuel + 1, c :: rest =>
    match matchSimpleAt (c :: rest) with
    | some (cap, r) => simpleRepl cap ++ sub1Go fuel r
    | none => c :: sub1Go fuel rest

/-- Pass 1: `re.sub` of Pattern 1 over the whole document. -/
def sub1 (s : List Char) : List Char := sub1Go s.length s

theorem dropLit_length : ∀ {p s r : List Char}, dropLit p s = some r →
    r.length + p.length = s.length := by
  intro p
  induction p with
  | nil => intro s r h; simp [dropLit] at h; simp [h]
  | cons a ps ih =>
    intro s r h
    cases s with
    | nil => simp [dropLit] at h
    | cons c cs =>
      simp only [dropLit] at h
      split at h
      · have := ih h
        simp [List.length_cons]
        omega
      · exact absurd h (by simp)

theorem dropWhileLen (p : Char → Bool) (l : List Char) :
    (l.dropWhile p).length ≤ l.length := by
  induction l with
  | nil => simp
  | cons c cs ih =>
    rw [List.dropWhile_cons]
    split
    · exact Nat.le_succ_of_le ih
    · simp

theorem quoteParen_length {s cap r : List Char} (h : quoteParen s = some (cap, r)) :
    r.length + 2 ≤ s.length := by
  unfold quoteParen at h
  by_cases he : (s.takeWhile notQuote).isEmpty
  · rw [if_pos he] at h
    exact absurd h (by simp)
  · rw [if_neg he] at h
    split at h
    · rename_i r' heq
      simp only [Option.some.injEq, Prod.mk.injEq] at h
      obtain ⟨-, rfl⟩ := h
      have h2 : (s.dropWhile notQuote).length ≤ s.length := dropWhileLen _ _
      rw [heq] at h2
      simp only [List.length_cons] at h2
      omega
    · exact absurd h (by simp)

theorem matchSimpleAt_length {s cap r : List Char} (h : matchSimpleAt s = some (cap, r)) :
    r.length < s.length := by
  unfold matchSimpleAt at h
  split at h
  · exact absurd h (by simp)
  · rename_i s1 h1
    split at h
    · exact absurd h (by simp)
    · rename_i s2 h2
      have l1 := dropLit_length h1
      have l2 := dropLit_length h2
      have l1' : (s1.dropWhile isPySpace).length ≤ s1.length := dropWhileLen _ _
      have l2' : (s2.dropWhile isPySpace).length ≤ s2.length := dropWhileLen _ _
      split at h
      · rename_i s3 h3
        have hq := quoteParen_length h
        rw [h3] at l2'
        simp only [List.length_cons] at l2'
        have e1 : ("createElement(Label,".toList : List Char).length = 20 := rfl
        have e2 : ("null,".toList : List Char).length = 5 := rfl
        rw [e1] at l1
        rw [e2] at l2
        omega
      · exact absurd h (by simp)

theorem sub1Go_fuel : ∀ (f1 : Nat) {f2 : Nat} {s : List Char},
    s.length ≤ f1 → s.length ≤ f2 → sub1Go f1 s = sub1Go f2 s := by
  intro f1
  induction f1 with
  | zero =>
    intro f2 s h1 _
    have hs : s = [] := List.length_eq_zero.mp (Nat.le_zero.mp h1)
    subst hs
    cases f2 <;> rfl
  | succ f1' ih =>
    intro f2 s h1 h2
    cases s with
    | nil => cases f2 <;> rfl
    | cons c rest =>
      have hf2 : ∃ g, f2 = g + 1 := by
        cases f2 with
        | zero => simp [List.length_cons] at h2
        | succ g => exact ⟨g, rfl⟩
      obtain ⟨g, rfl⟩ := hf2
      cases hm : matchSimpleAt (c :: rest) with
      | none =>
        simp only [sub1Go, hm]
        simp only [List.length_cons] at h1 h2
        rw [@ih g rest (by omega) (by omega)]
      | some pr =>
        obtain ⟨cap, r⟩ := pr
        have hr := matchSimpleAt_length hm
        simp only [sub1Go, hm]
        simp only [List.length_cons] at h1 h2 hr
        rw [@ih g r (by omega) (by omega)]

theorem sub1_of_match {c : Char} {rest cap r : List Char}
    (h : matchSimpleAt (c :: rest) = some (cap, r)) :
    sub1 (c :: rest) = simpleRepl cap ++ sub1 r := by
  show sub1Go (rest.length + 1) (c :: rest) = _
  simp only [sub1Go, h]
  have hr := matchSimpleAt_length h
  simp only [List.length_cons] at hr
  rw [sub1Go_fuel rest.length (by omega) (le_refl _)]
  rfl

theorem sub1_of_no_match {c : Char} {rest : List Char}
    (h : matchSimpleAt (c :: rest) = none) :
    sub1 (c :: rest) = c :: sub1 rest := by
  show sub1Go (rest.length + 1) (c :: rest) = _
  simp only [sub1Go, h]
  rfl

theorem takeWhile_all_append {p : Char → Bool} {l : List Char}
    (h : ∀ c ∈ l, p c = true) (l2 : List Char) :
    (l ++ l2).takeWhile p = l ++ l2.takeWhile p := by
  induction l with
  | nil => simp
  | cons a as ih =>
    have ha : p a = true := h a (List.mem_cons_self a as)
    simp only [List.cons_append, List.takeWhile_cons, ha, if_true]
    rw [ih fun c hc => h c (List.mem_cons_of_mem a hc)]

theorem dropWhile_all_append {p : Char → Bool} {l : List Char}
    (h : ∀ c ∈ l, p c = true) (l2 : List Char) :
    (l ++ l2).dropWhile p = l2.dropWhile p := by
  induction l with
  | nil => simp
  | cons a as ih =>
    have ha : p a = true := h a (List.mem_cons_self a as)
    simp only [List.cons_append, List.dropWhile_cons, ha, if_true]
    exact ih fun c hc => h c (List.mem_cons_of_mem a hc)

theorem matchSimpleAt_simpleCall {txt : List Char} (rest : List Char)
    (h1 : txt ≠ []) (h2 : ∀ c ∈ txt, c ≠ '"') :
    matchSimpleAt (simpleCall txt ++ rest) = some (txt, rest) := by
  have hq : ∀ c ∈ txt, notQuote c = true := by
    intro c hc
    simp [notQuote, h2 c hc]
  have harg : simpleCall txt ++ rest =
      "createElement(Label, null, \"".toList ++ (txt ++ '"' :: ')' :: rest) := by
    simp [simpleCall, List.append_assoc]
  rw [harg]
  have hred : matchSimpleAt ("createElement(Label, null, \"".toList ++
      (txt ++ '"' :: ')' :: rest)) = quoteParen (txt ++ '"' :: ')' :: rest) := rfl
  rw [hred]
  unfold quoteParen
  rw [takeWhile_all_append hq, dropWhile_all_append hq]
  have ht : ('"' :: ')' :: rest).takeWhile notQuote = [] := by
    simp [List.takeWhile_cons, notQuote]
  have hd : ('"' :: ')' :: rest).dropWhile notQuote = '"' :: ')' :: rest := by
    simp [List.dropWhile_cons, notQuote]
  rw [ht, hd]
  obtain ⟨a, txt', rfl⟩ := List.exists_cons_of_ne_nil h1
  simp

theorem sub1_id_of_no_match : ∀ (s : List Char),
    (∀ n, matchSimpleAt (s.drop n) = none) → sub1 s = s := by
  intro s
  induction s with
  | nil => intro _; rfl
  | cons c rest ih =>
    intro h
    have h0 : matchSimpleAt (c :: rest) = none := h 0
    rw [sub1_of_no_match h0]
    rw [ih fun n => by have := h (n + 1); simpa using this]

/-- An input on which Pass 1 is not idempotent: the inner simple call is
replaced on the first run, and the replacement text (which contains no
quote characters) splices the surrounding text into a fresh match. -/
def noIdemEx : List Char :=
  "createElement(Label, null, \"AcreateElement(Label, null, \"x\")B\")".toList

/-- C1: Pass 1 rewrites every occurrence of the simple-call pattern
`createElement(Label, null, "text")` (with a plain double-quoted text child)
into `<Label>text</Label>`: a match at the current scan position is replaced
and the scan resumes after the match, a non-matching position passes its
character through unchanged, an input with no match at any position is
returned unchanged (no-op, no error), and the concrete line
`createElement(Label, null, "Name")` becomes `<Label>Name</Label>`. -/
theorem c1_simple_call_rewrite :
    (∀ txt rest : List Char, txt ≠ [] → (∀ c ∈ txt, c ≠ '"') →
        sub1 (simpleCall txt ++ rest) = simpleRepl txt ++ sub1 rest)
  ∧ (∀ (c : Char) (s : List Char), matchSimpleAt (c :: s) = none →
        sub1 (c :: s) = c :: sub1 s)
  ∧ (∀ s : List Char, (∀ n, matchSimpleAt (s.drop n) = none) → sub1 s = s)
  ∧ sub1 "createElement(Label, null, \"Name\")".toList
      = "<Label>Name</Label>".toList := by
  refine ⟨?_, ?_, ?_, ?_⟩
  · intro txt rest h1 h2
    have hm := matchSimpleAt_simpleCall rest h1 h2
    have hne : simpleCall txt ++ rest ≠ [] := by simp [simpleCall]
    obtain ⟨c, cs, hcs⟩ := List.exists_cons_of_ne_nil hne
    rw [hcs] at hm ⊢
    exact sub1_of_match hm
  · exact fun c s h => sub1_of_no_match h
  · exact sub1_id_of_no_match
  · decide

/-- Witness for C1, at `txt = "Name"` and `rest = []`. -/
theorem c1_simple_call_rewrite_witness :
    sub1 (simpleCall "Name".toList ++ []) = simpleRepl "Name".toList ++ sub1 [] :=
  c1_simple_call_rewrite.1 "Name".toList [] (by decide) (by decide)

/-- C8 counterexample: Pass 1 is not idempotent.  On the input
`createElement(Label, null, "AcreateElement(Label, null, "x")B")` the first
run rewrites only the inner call (the outer candidate fails because its
quoted child is interrupted by the inner quotes), and the replacement text
contains no quote characters, so the second run finds and rewrites a fresh
outer match. -/
theorem c8_counterexample :
    sub1 noIdemEx = "createElement(Label, null, \"A<Label>x</Label>B\")".toList
  ∧ sub1 (sub1 noIdemEx) = "<Label>A<Label>x</Label>B</Label>".toList
  ∧ sub1 (sub1 noIdemEx) ≠ sub1 noIdemEx := by
  refine ⟨by decide, by decide, by decide⟩

/-- C8 amended: Pass 1 composed with itself agrees with Pass 1 on every
input whose Pass-1 output contains no further occurrence of the simple-call
pattern; idempotence does not hold unconditionally, because a replacement
can splice surrounding text into a new match. -/
theorem c8_amended_idempotent_no_new_match (s : List Char)
    (h : ∀ n < (sub1 s).length, matchSimpleAt ((sub1 s).drop n) = none) :
    sub1 (sub1 s) = sub1 s := by
  apply sub1_id_of_no_match
  intro n
  by_cases hn : n < (sub1 s).length
  · exact h n hn
  · have hnil : (sub1 s).drop n = [] := List.drop_eq_nil_of_le (by omega)
    rw [hnil]
    rfl

/-- Witness for the amended C8 at the input `"abc"`. -/
theorem c8_amended_idempotent_no_new_match_witness :
    sub1 (sub1 "abc".toList) = sub1 "abc".toList :=
  c8_amended_idempotent_no_new_match "abc".toList (by decide)

/-! ### Pass 2: the structured-call rewriter -/

/-- `line.count '(' - line.count ')'`, the per-line parenthesis balance. -/
def parenBal (l : List Char) : Int :=
  (l.count '(' : Int) - (l.count ')' : Int)

/-- Cumulative parenthesis balance of a block of lines. -/
def spanBal : List (List Char) → Int
  | [] => 0
  | l :: ls => parenBal l + spanBal ls

/-- The span-collection loop: starting from running depth `depth`,
accumulate lines and their parenthesis balance; stop with the remaining
lines as soon as the depth returns to zero.  If the depth never returns to
zero the whole remainder is accumulated and `none` is returned for the
rest (the Python `for` loop runs off the end without executing `i = j`). -/
def collectSpan (depth : Int) : List (List Char) → List (List Char) × Option (List (List Char))
  | [] => ([], none)
  | l :: ls =>
    if depth + parenBal l = 0 then ([l], some ls)
    else
      match collectSpan (depth + parenBal l) ls with
      | (span, orest) => (l :: span, orest)

/-- A line is a candidate start when it contains `createElement(`, `Label`
and `{`. -/
def isCandidate (l : List Char) : Bool :=
  hasSub "createElement(".toList l && hasSub "Label".toList l &&
    hasSub "\x7b".toList l

/-- Python `str.strip()` (whitespace, ASCII range). -/
def stripChars (l : List Char) : List Char :=
  ((l.dropWhile isPySpace).reverse.dropWhile isPySpace).reverse

/-- Python `str.rstrip(',')`: remove every trailing comma. -/
def rstripComma (l : List Char) : List Char :=
  (l.reverse.dropWhile (fun c => c == ',')).reverse

/-- Everything after the first colon of the line (empty if no colon). -/
def afterColon (l : List Char) : List Char :=
  (l.dropWhile notColon).tail

/-- Python `line.split(':')[1]`: the text strictly between the first and
the second colon, or everything after the first colon when there is no
second one. -/
def colonSeg1 (l : List Char) : List Char :=
  (afterColon l).takeWhile notColon

/-- The recognized-key `if`/`elif` chain of the script, applied to a
cleaned property-bag line: substring tests in fixed order, first match
wins; unrecognized lines yield `none`. -/
def classifyProp (pl : List Char) : Option (List Char) :=
  let val := stripChars (colonSeg1 pl)
  if hasSub "\"data-testid\":".toList pl || hasSub "'data-testid':".toList pl then
    some ("data-testid=".toList ++ val)
  else if hasSub "required:".toList pl then
    if val = "true".toList then some "required".toList
    else some ("required=\x7b".toList ++ val ++ "\x7d".toList)
  else if hasSub "disabled:".toList pl then
    if val = "true".toList then some "disabled".toList
    else some ("disabled=\x7b".toList ++ val ++ "\x7d".toList)
  else if hasSub "size:".toList pl then
    some ("size=".toList ++ val)
  else if hasSub "className:".toList pl then
    some ("className=".toList ++ val)
  else if hasSub "htmlFor:".toList pl then
    some ("htmlFor=".toList ++ val)
  else if hasSub "id:".toList pl then
    some ("id=".toList ++ val)
  else if hasSub "\"aria-label\":".toList pl || hasSub "'aria-label':".toList pl then
    some ("aria-label=".toList ++ val)
  else if hasSub "\"aria-describedby\":".toList pl || hasSub "'aria-describedby':".toList pl then
    some ("aria-describedby=".toList ++ val)
  else none

/-- Processing of one raw property-bag line: strip whitespace, strip
trailing commas, skip the line unless it is non-empty and contains a
colon, then run the recognized-key chain. -/
def processProp (raw : List Char) : Option (List Char) :=
  let pl := rstripComma (stripChars raw)
  if pl.isEmpty then none
  else if pl.contains ':' then classifyProp pl
  else none

/-- Python `text.split('\n')`. -/
def splitNl : List Char → List (List Char)
  | [] => [[]]
  | c :: rest =>
    if c = '\n' then [] :: splitNl rest
    else
      match splitNl rest with
      | [] => [[c]]
      | l :: ls => (c :: l) :: ls

/-- Python `'\n'.join(...)`. -/
def joinNl : List (List Char) → List Char
  | [] => []
  | [l] => l
  | l :: ls => l ++ '\n' :: joinNl ls

/-- Matcher for Pattern 2,
`createElement\(\s*Label,\s*\{([^}]+)\},\s*"([^"]+)"\s*\)`, anchored at the
head of `s`; on success returns the two capture groups (property-bag
interior, literal child text). -/
def matchStructAt (s : List Char) : Option (List Char × List Char) :=
  match dropLit "createElement(".toList s with
  | none => none
  | some s1 =>
    match dropLit "Label,".toList (s1.dropWhile isPySpace) with
    | none => none
    | some s2 =>
      match s2.dropWhile isPySpace with
      | '\x7b' :: s3 =>
        if (s3.takeWhile notRBrace).isEmpty then none
        else
          match s3.dropWhile notRBrace with
          | '\x7d' :: ',' :: s4 =>
            match s4.dropWhile isPySpace with
            | '"' :: s5 =>
              if (s5.takeWhile notQuote).isEmpty then none
              else
                match s5.dropWhile notQuote with
                | '"' :: s6 =>
                  match s6.dropWhile isPySpace with
                  | ')' :: _ => some (s3.takeWhile notRBrace, s5.takeWhile notQuote)
                  | _ => none
                | _ => none
            | _ => none
          | _ => none
      | _ => none

/-- Python `re.search` of Pattern 2: try every start position from the
left, return the first success. -/
def searchStruct : List Char → Option (List Char × List Char)
  | [] => none
  | c :: rest =>
    match matchStructAt (c :: rest) with
    | some pr => some pr
    | none => searchStruct rest

/-- The hardcoded base indent of the emitted JSX: three tab characters. -/
def indentStr : List Char := ['\t', '\t', '\t']

/-- Python `' '.join(...)`. -/
def joinSpace : List (List Char) → List Char
  | [] => []
  | [p] => p
  | p :: ps => p ++ ' ' :: joinSpace ps

/-- The attribute lines of the multi-line layout: one per property,
indented by the base indent plus two tabs. -/
def propLines : List (List Char) → List Char
  | [] => []
  | p :: ps => indentStr ++ '\t' :: '\t' :: (p ++ '\n' :: propLines ps)

/-- The JSX replacement block: single-line layout when at most two
attributes were recognized, multi-line layout otherwise. -/
def buildJsx (props : List (List Char)) (children : List Char) : List Char :=
  if props.length ≤ 2 then
    indentStr ++ "render(<Label ".toList ++ joinSpace props ++
      '>' :: (children ++ "</Label>);".toList)
  else
    indentStr ++ "render(\n".toList ++ indentStr ++ "\t<Label\n".toList ++
      propLines props ++
      indentStr ++ "\t>\n".toList ++
      indentStr ++ '\t' :: '\t' :: (children ++ '\n' ::
        (indentStr ++ "\t</Label>,\n".toList ++ indentStr ++ ");".toList))

/-- Processing of one collected call span: run the structured pattern over
the joined span text; on success emit the JSX block as one chunk, on
failure emit the span's lines verbatim. -/
def processSpan (span : List (List Char)) : List (List Char) :=
  match searchStruct (joinNl span) with
  | some (propsRaw, children) =>
    [buildJsx ((splitNl (stripChars propsRaw)).filterMap processProp) children]
  | none => span

/-- One fuelled step of the Pass 2 scan over the list of lines.  On a
candidate line the full span is collected and processed; if the span
closed (depth returned to zero) the scan resumes after it, otherwise the
outer index advances only one line, so the lines after the candidate line
are scanned (and emitted) a second time. -/
def pass2Go : Nat → List (List Char) → List (List Char)
  | 0, _ => []
  | _ + 1, [] => []
  | fuel + 1, line :: rest0 =>
    if isCandidate line then
      match collectSpan 0 (line :: rest0) with
      | (span, some rest) => processSpan span ++ pass2Go fuel rest
      | (span, none) => processSpan span ++ pass2Go fuel rest0
    else
      line :: pass2Go fuel rest0

/-- Pass 2 over a list of lines. -/
def pass2 (ls : List (List Char)) : List (List Char) := pass2Go ls.length ls

/-- The whole transformation of the script (file I/O aside): Pass 1 on the
raw text, then Pass 2 on its lines, joined back with newlines. -/
def rewriteContent (content : List Char) : List Char :=
  joinNl (pass2 (splitNl (sub1 content)))

theorem collectSpan_decomp : ∀ {ls span rest : List (List Char)} {d : Int},
    collectSpan d ls = (span, some rest) → ls = span ++ rest ∧ span ≠ [] := by
  intro ls
  induction ls with
  | nil =>
    intro span rest d h
    simp [collectSpan] at h
  | cons l ls ih =>
    intro span rest d h
    simp only [collectSpan] at h
    split at h
    · simp only [Prod.mk.injEq, Option.some.injEq] at h
      obtain ⟨rfl, rfl⟩ := h
      simp
    · cases hcs : collectSpan (d + parenBal l) ls with
      | mk span' orest =>
        simp only [hcs] at h
        simp only [Prod.mk.injEq] at h
        obtain ⟨rfl, horest⟩ := h
        cases orest with
        | none => simp at horest
        | some r' =>
          simp only [Option.some.injEq] at horest
          subst horest
          obtain ⟨hdec, -⟩ := ih hcs
          exact ⟨by rw [hdec]; simp, by simp⟩

theorem collectSpan_rest_lt {ls span rest : List (List Char)} {d : Int}
    (h : collectSpan d ls = (span, some rest)) : rest.length < ls.length := by
  obtain ⟨hdec, hne⟩ := collectSpan_decomp h
  have hpos : 0 < span.length := List.length_pos.mpr hne
  rw [hdec, List.length_append]
  omega

theorem pass2Go_fuel : ∀ (f1 : Nat) {f2 : Nat} {ls : List (List Char)},
    ls.length ≤ f1 → ls.length ≤ f2 → pass2Go f1 ls = pass2Go f2 ls := by
  intro f1
  induction f1 with
  | zero =>
    intro f2 ls h1 _
    have hs : ls = [] := List.length_eq_zero.mp (Nat.le_zero.mp h1)
    subst hs
    cases f2 <;> rfl
  | succ f1' ih =>
    intro f2 ls h1 h2
    cases ls with
    | nil => cases f2 <;> rfl
    | cons line rest0 =>
      have hf2 : ∃ g, f2 = g + 1 := by
        cases f2 with
        | zero => simp [List.length_cons] at h2
        | succ g => exact ⟨g, rfl⟩
      obtain ⟨g, rfl⟩ := hf2
      cases hc : isCandidate line with
      | false =>
        simp only [pass2Go, hc, Bool.false_eq_true, if_false]
        simp only [List.length_cons] at h1 h2
        rw [@ih g rest0 (by omega) (by omega)]
      | true =>
        cases hcs : collectSpan 0 (line :: rest0) with
        | mk span orest =>
          cases orest with
          | some rest =>
            have hlt := collectSpan_rest_lt hcs
            simp only [pass2Go, hc, if_true, hcs]
            simp only [List.length_cons] at h1 h2 hlt
            rw [@ih g rest (by omega) (by omega)]
          | none =>
            simp only [pass2Go, hc, if_true, hcs]
            simp only [List.length_cons] at h1 h2
            rw [@ih g rest0 (by omega) (by omega)]

theorem pass2_candidate_closed {line : List Char} {rest0 span rest : List (List Char)}
    (hc : isCandidate line = true)
    (h : collectSpan 0 (line :: rest0) = (span, some rest)) :
    pass2 (line :: rest0) = processSpan span ++ pass2 rest := by
  show pass2Go (rest0.length + 1) (line :: rest0) = _
  simp only [pass2Go, hc, if_true, h]
  have hlt := collectSpan_rest_lt h
  simp only [List.length_cons] at hlt
  rw [pass2Go_fuel rest0.length (by omega) (le_refl rest.length)]
  rfl

theorem pass2_candidate_open {line : List Char} {rest0 span : List (List Char)}
    (hc : isCandidate line = true)
    (h : collectSpan 0 (line :: rest0) = (span, none)) :
    pass2 (line :: rest0) = processSpan span ++ pass2 rest0 := by
  show pass2Go (rest0.length + 1) (line :: rest0) = _
  simp only [pass2Go, hc, if_true, h]
  rfl

theorem pass2_not_candidate {line : List Char} {rest0 : List (List Char)}
    (hc : isCandidate line = false) :
    pass2 (line :: rest0) = line :: pass2 rest0 := by
  show pass2Go (rest0.length + 1) (line :: rest0) = _
  simp only [pass2Go, hc, Bool.false_eq_true, if_false]
  rfl

/-- C2: a candidate span on which the structured pattern search fails is
emitted verbatim — `processSpan` returns the span's lines unchanged, and
the Pass 2 scan emits exactly those lines before continuing after the
span.  No other outcome (error or log) exists in the code. -/
theorem c2_unmatched_span_verbatim {line : List Char} {rest0 span rest : List (List Char)}
    (hc : isCandidate line = true)
    (hspan : collectSpan 0 (line :: rest0) = (span, some rest))
    (hm : searchStruct (joinNl span) = none) :
    processSpan span = span ∧ pass2 (line :: rest0) = span ++ pass2 rest := by
  have hps : processSpan span = span := by
    simp [processSpan, hm]
  exact ⟨hps, by rw [pass2_candidate_closed hc hspan, hps]⟩

/-- Witness for C2: a one-line candidate whose child is not a string
literal fails the structured match and passes through unchanged. -/
theorem c2_unmatched_span_verbatim_witness :
    processSpan ["createElement(Label, \x7ba: 1\x7d, foo)".toList] =
      ["createElement(Label, \x7ba: 1\x7d, foo)".toList] ∧
    pass2 ["createElement(Label, \x7ba: 1\x7d, foo)".toList] =
      ["createElement(Label, \x7ba: 1\x7d, foo)".toList] ++ pass2 [] :=
  c2_unmatched_span_verbatim (by decide) (by decide) (by decide)

theorem collectSpan_balance : ∀ {ls span rest : List (List Char)} {d : Int},
    collectSpan d ls = (span, some rest) →
    d + spanBal span = 0 ∧
      ∀ k, 0 < k → k < span.length → d + spanBal (span.take k) ≠ 0 := by
  intro ls
  induction ls with
  | nil =>
    intro span rest d h
    simp [collectSpan] at h
  | cons l ls ih =>
    intro span rest d h
    simp only [collectSpan] at h
    split at h
    · rename_i hz
      simp only [Prod.mk.injEq, Option.some.injEq] at h
      obtain ⟨rfl, rfl⟩ := h
      refine ⟨by simpa [spanBal] using hz, ?_⟩
      intro k hk1 hk2
      simp only [List.length_cons, List.length_nil] at hk2
      omega
    · rename_i hz
      cases hcs : collectSpan (d + parenBal l) ls with
      | mk span' orest =>
        simp only [hcs] at h
        simp only [Prod.mk.injEq] at h
        obtain ⟨rfl, horest⟩ := h
        cases orest with
        | none => simp at horest
        | some r' =>
          simp only [Option.some.injEq] at horest
          subst horest
          obtain ⟨hbal, hpre⟩ := ih hcs
          refine ⟨by simp only [spanBal]; omega, ?_⟩
          intro k hk1 hk2
          cases k with
          | zero => omega
          | succ k' =>
            cases k' with
            | zero =>
              simpa [spanBal] using hz
            | succ k'' =>
              simp only [List.length_cons] at hk2
              have hp := hpre (k'' + 1) (by omega) (by omega)
              simp only [List.take_succ_cons, spanBal]
              intro hcontra
              exact hp (by omega)

/-- C9: a collected call span is a contiguous block: it consists of the
lines from the candidate line up to (and including) the first line at
which the cumulative parenthesis balance returns to zero — the total
balance of the span is zero and no proper non-empty prefix has balance
zero — the remaining lines are exactly those after the span, and on a
candidate line the scan emits the processed span and resumes after it, so
one tracked span never properly contains another. -/
theorem c9_span_collection_invariant {lines span rest : List (List Char)}
    (h : collectSpan 0 lines = (span, some rest)) :
    lines = span ++ rest ∧ span ≠ [] ∧ spanBal span = 0 ∧
    (∀ k, 0 < k → k < span.length → spanBal (span.take k) ≠ 0) ∧
    (∀ line rest0, lines = line :: rest0 → isCandidate line = true →
      pass2 lines = processSpan span ++ pass2 rest) := by
  obtain ⟨hdec, hne⟩ := collectSpan_decomp h
  obtain ⟨hbal, hpre⟩ := collectSpan_balance h
  refine ⟨hdec, hne, by simpa using hbal, fun k h1 h2 => by simpa using hpre k h1 h2, ?_⟩
  intro line rest0 hl hc
  subst hl
  exact pass2_candidate_closed hc h

/-- Witness for C9 on a concrete two-line span. -/
theorem c9_span_collection_invariant_witness :
    (["createElement(Label, \x7b".toList, "\x7d, \"x\")".toList] : List (List Char)) =
      ["createElement(Label, \x7b".toList, "\x7d, \"x\")".toList] ++ [] ∧
    spanBal ["createElement(Label, \x7b".toList, "\x7d, \"x\")".toList] = 0 :=
  ⟨(@c9_span_collection_invariant
      ["createElement(Label, \x7b".toList, "\x7d, \"x\")".toList]
      ["createElement(Label, \x7b".toList, "\x7d, \"x\")".toList]
      [] (by decide)).1,
   (@c9_span_collection_invariant
      ["createElement(Label, \x7b".toList, "\x7d, \"x\")".toList]
      ["createElement(Label, \x7b".toList, "\x7d, \"x\")".toList]
      [] (by decide)).2.2.1⟩

/-- C10: on an input whose candidate line never closes its parentheses,
Pass 2 duplicates every line after the candidate line: the span-collection
loop swallows the whole remainder, but the outer index advances only one
line, so the remaining lines are scanned and emitted a second time. -/
theorem c10_unclosed_span_duplicates :
    pass2 ["createElement(Label, \x7b foo".toList, "aaa".toList, "bbb".toList] =
      ["createElement(Label, \x7b foo".toList, "aaa".toList, "bbb".toList,
        "aaa".toList, "bbb".toList] ∧
    pass2 ["createElement(Label, \x7b foo".toList, "aaa".toList, "bbb".toList] ≠
      ["createElement(Label, \x7b foo".toList, "aaa".toList, "bbb".toList] := by
  refine ⟨by decide, by decide⟩

theorem splitNl_no_nl {l : List Char} (h : ∀ c ∈ l, c ≠ '\n') : splitNl l = [l] := by
  induction l with
  | nil => rfl
  | cons c cs ih =>
    have hc : ¬(c = '\n') := h c (List.mem_cons_self c cs)
    simp only [splitNl, if_neg hc]
    rw [ih fun x hx => h x (List.mem_cons_of_mem c hx)]

theorem no_nl_append {a b : List Char} (ha : ∀ c ∈ a, c ≠ '\n')
    (hb : ∀ c ∈ b, c ≠ '\n') : ∀ c ∈ a ++ b, c ≠ '\n' := by
  intro c hc
  rcases List.mem_append.mp hc with h | h
  · exact ha c h
  · exact hb c h

theorem no_nl_cons {a : Char} {b : List Char} (ha : a ≠ '\n')
    (hb : ∀ c ∈ b, c ≠ '\n') : ∀ c ∈ a :: b, c ≠ '\n' := by
  intro c hc
  rcases List.mem_cons.mp hc with rfl | h
  · exact ha
  · exact hb c h

theorem splitNl_append_nl {a : List Char} (h : ∀ c ∈ a, c ≠ '\n') (b : List Char) :
    splitNl (a ++ '\n' :: b) = a :: splitNl b := by
  induction a with
  | nil => simp [splitNl]
  | cons c cs ih =>
    have hc : ¬(c = '\n') := h c (List.mem_cons_self c cs)
    simp only [List.cons_append, splitNl, if_neg hc, List.append_eq]
    rw [ih fun x hx => h x (List.mem_cons_of_mem c hx)]

theorem splitNl_propLines {props : List (List Char)}
    (h : ∀ p ∈ props, ∀ c ∈ p, c ≠ '\n') (tail : List Char) :
    splitNl (propLines props ++ tail) =
      (props.map fun p => indentStr ++ '\t' :: '\t' :: p) ++ splitNl tail := by
  induction props with
  | nil => simp [propLines]
  | cons p ps ih =>
    have hp : ∀ c ∈ indentStr ++ '\t' :: '\t' :: p, c ≠ '\n' :=
      no_nl_append (by decide)
        (no_nl_cons (by decide) (no_nl_cons (by decide) (h p (List.mem_cons_self p ps))))
    have hassoc : propLines (p :: ps) ++ tail =
        (indentStr ++ '\t' :: '\t' :: p) ++ '\n' :: (propLines ps ++ tail) := by
      simp [propLines, List.append_assoc]
    rw [hassoc, splitNl_append_nl hp, ih fun q hq => h q (List.mem_cons_of_mem p hq)]
    simp

theorem joinSpace_no_nl : ∀ {props : List (List Char)},
    (∀ p ∈ props, ∀ c ∈ p, c ≠ '\n') → ∀ c ∈ joinSpace props, c ≠ '\n' := by
  intro props
  induction props with
  | nil => intro _ c hc; simp [joinSpace] at hc
  | cons p ps ih =>
    intro h c hc
    cases ps with
    | nil =>
      exact h p (List.mem_cons_self p []) c hc
    | cons q qs =>
      have hj : joinSpace (p :: q :: qs) = p ++ ' ' :: joinSpace (q :: qs) := rfl
      rw [hj] at hc
      simp only [List.mem_append, List.mem_cons] at hc
      rcases hc with h1 | h1 | h1
      · exact h p (List.mem_cons_self p (q :: qs)) c h1
      · subst h1; decide
      · exact ih (fun r hr => h r (List.mem_cons_of_mem p hr)) c h1

/-- C3 counterexample: the single-line layout's base indent is three tab
characters, not two as the claim states. -/
theorem c3_counterexample :
    buildJsx ["required".toList] "Field".toList =
      "\t\t\trender(<Label required>Field</Label>);".toList ∧
    buildJsx ["required".toList] "Field".toList ≠
      "\t\trender(<Label required>Field</Label>);".toList := by
  refine ⟨by decide, by decide⟩

/-- C3 amended: with at most 2 recognized attributes the output is one
single line — the base indent of three tab characters, the render call
wrapping the open tag, the space-joined attributes, the literal child and
the closing tag; with 3 or more attributes it is the multi-line form — a
render-call opening line, an indented opening tag line, one attribute per
indented line, an indented `>`, the child-text line, the closing tag line
and the call-closing line with a trailing comma, each nesting level one
tab beyond the three-tab base.  The boundary is exactly at count 2 versus
count 3. -/
theorem c3_amended_layout_boundary (props : List (List Char)) (children : List Char)
    (hp : ∀ p ∈ props, ∀ c ∈ p, c ≠ '\n') (hc : ∀ c ∈ children, c ≠ '\n') :
    (props.length ≤ 2 →
      splitNl (buildJsx props children) =
        [indentStr ++ "render(<Label ".toList ++ joinSpace props ++
          '>' :: (children ++ "</Label>);".toList)])
  ∧ (2 < props.length →
      splitNl (buildJsx props children) =
        [indentStr ++ "render(".toList, indentStr ++ "\t<Label".toList] ++
        (props.map fun p => indentStr ++ '\t' :: '\t' :: p) ++
        [indentStr ++ "\t>".toList, indentStr ++ '\t' :: '\t' :: children,
          indentStr ++ "\t</Label>,".toList, indentStr ++ ");".toList]) := by
  constructor
  · intro hle
    have hone : ∀ c ∈ indentStr ++ "render(<Label ".toList ++ joinSpace props ++
        '>' :: (children ++ "</Label>);".toList), c ≠ '\n' :=
      no_nl_append
        (no_nl_append (no_nl_append (by decide) (by decide)) (joinSpace_no_nl hp))
        (no_nl_cons (by decide) (no_nl_append hc (by decide)))
    have hb : buildJsx props children =
        indentStr ++ "render(<Label ".toList ++ joinSpace props ++
          '>' :: (children ++ "</Label>);".toList) := by
      simp [buildJsx, hle]
    rw [hb, splitNl_no_nl hone]
  · intro hgt
    have hb : buildJsx props children =
        (indentStr ++ "render(".toList) ++ '\n' ::
        ((indentStr ++ "\t<Label".toList) ++ '\n' ::
        (propLines props ++
        ((indentStr ++ "\t>".toList) ++ '\n' ::
        ((indentStr ++ '\t' :: '\t' :: children) ++ '\n' ::
        ((indentStr ++ "\t</Label>,".toList) ++ '\n' ::
        (indentStr ++ ");".toList)))))) := by
      have hnle : ¬props.length ≤ 2 := by omega
      simp [buildJsx, hnle, List.append_assoc]
    rw [hb]
    rw [splitNl_append_nl (by decide)]
    rw [splitNl_append_nl (by decide)]
    rw [splitNl_propLines hp]
    rw [splitNl_append_nl (by decide)]
    have hchild : ∀ c ∈ indentStr ++ '\t' :: '\t' :: children, c ≠ '\n' :=
      no_nl_append (by decide) (no_nl_cons (by decide) (no_nl_cons (by decide) hc))
    rw [splitNl_append_nl hchild]
    rw [splitNl_append_nl (by decide)]
    rw [splitNl_no_nl (by decide)]
    simp

/-- Witness for the amended C3 with three recognized attributes. -/
theorem c3_amended_layout_boundary_witness :
    splitNl (buildJsx ["a".toList, "b".toList, "c".toList] "T".toList) =
      [indentStr ++ "render(".toList, indentStr ++ "\t<Label".toList] ++
      (["a".toList, "b".toList, "c".toList].map fun p => indentStr ++ '\t' :: '\t' :: p) ++
      [indentStr ++ "\t>".toList, indentStr ++ '\t' :: '\t' :: "T".toList,
        indentStr ++ "\t</Label>,".toList, indentStr ++ ");".toList] :=
  (c3_amended_layout_boundary ["a".toList, "b".toList, "c".toList] "T".toList
    (by decide) (by decide)).2 (by decide)

theorem takeWhileAll {p : Char → Bool} : ∀ {l : List Char},
    (∀ c ∈ l, p c = true) → l.takeWhile p = l := by
  intro l
  induction l with
  | nil => intro _; rfl
  | cons a as ih =>
    intro h
    rw [List.takeWhile_cons, if_pos (h a (List.mem_cons_self a as)),
      ih fun c hc => h c (List.mem_cons_of_mem a hc)]

/-- C4 counterexample: for a boolean-style property whose value expression
contains a colon, the emitted value is the text between the first and the
second colon, not the original expression: `disabled: a ? b : c` becomes
`disabled={a ? b}`, not `disabled={a ? b : c}`. -/
theorem c4_counterexample :
    processProp "disabled: a ? b : c".toList = some "disabled=\x7ba ? b\x7d".toList ∧
    processProp "disabled: a ? b : c".toList ≠ some "disabled=\x7ba ? b : c\x7d".toList := by
  refine ⟨by decide, by decide⟩

/-- C4 amended: for lines recognized as `required` or `disabled`, the
compared and emitted value is the text strictly between the first and the
second colon of the line (or to the end when there is no second colon),
trimmed; if that value equals `true` the bare attribute name is emitted,
otherwise `key={value}` with that (possibly truncated) value. -/
theorem c4_amended_bool_value_between_colons (pl : List Char)
    (hdt1 : hasSub "\"data-testid\":".toList pl = false)
    (hdt2 : hasSub "'data-testid':".toList pl = false) :
    (hasSub "required:".toList pl = true →
      classifyProp pl =
        (if stripChars (colonSeg1 pl) = "true".toList then some "required".toList
          else some ("required=\x7b".toList ++ stripChars (colonSeg1 pl) ++ "\x7d".toList)))
  ∧ (hasSub "required:".toList pl = false → hasSub "disabled:".toList pl = true →
      classifyProp pl =
        (if stripChars (colonSeg1 pl) = "true".toList then some "disabled".toList
          else some ("disabled=\x7b".toList ++ stripChars (colonSeg1 pl) ++ "\x7d".toList))) := by
  constructor
  · intro hr
    unfold classifyProp
    rw [hdt1, hdt2, hr]
    simp
  · intro hr hd
    unfold classifyProp
    rw [hdt1, hdt2, hr, hd]
    simp

/-- Witness for the amended C4 on the line `required: false`. -/
theorem c4_amended_bool_value_between_colons_witness :
    classifyProp "required: false".toList =
      (if stripChars (colonSeg1 "required: false".toList) = "true".toList
        then some "required".toList
        else some ("required=\x7b".toList ++
          stripChars (colonSeg1 "required: false".toList) ++ "\x7d".toList)) :=
  (c4_amended_bool_value_between_colons "required: false".toList
    (by decide) (by decide)).1 (by decide)

/-- C5 counterexample: for a verbatim-value key whose value contains a
colon, only the text up to the second colon survives: the line
`"aria-label": "a: b"` is emitted as `aria-label="a`, not as
`aria-label="a: b"`. -/
theorem c5_counterexample :
    processProp "\"aria-label\": \"a: b\"".toList = some "aria-label=\"a".toList ∧
    processProp "\"aria-label\": \"a: b\"".toList ≠ some "aria-label=\"a: b\"".toList := by
  refine ⟨by decide, by decide⟩

/-- C5 amended: for each of the seven verbatim-value keys — `data-testid`,
`size`, `className`, `htmlFor`, `id`, `aria-label`, `aria-describedby` —
a line reaching that branch of the chain emits `key=value` where value is
the text strictly between the first and the second colon, trimmed; when
the text after the first colon contains no further colon this is the
whole text after the first colon, so only then is it preserved in full. -/
theorem c5_amended_value_between_colons :
    (∀ pl : List Char,
      (hasSub "\"data-testid\":".toList pl = true ∨
        hasSub "'data-testid':".toList pl = true) →
      classifyProp pl = some ("data-testid=".toList ++ stripChars (colonSeg1 pl)))
  ∧ (∀ pl : List Char,
      hasSub "\"data-testid\":".toList pl = false →
      hasSub "'data-testid':".toList pl = false →
      hasSub "required:".toList pl = false →
      hasSub "disabled:".toList pl = false →
      hasSub "size:".toList pl = true →
      classifyProp pl = some ("size=".toList ++ stripChars (colonSeg1 pl)))
  ∧ (∀ pl : List Char,
      hasSub "\"data-testid\":".toList pl = false →
      hasSub "'data-testid':".toList pl = false →
      hasSub "required:".toList pl = false →
      hasSub "disabled:".toList pl = false →
      hasSub "size:".toList pl = false →
      hasSub "className:".toList pl = true →
      classifyProp pl = some ("className=".toList ++ stripChars (colonSeg1 pl)))
  ∧ (∀ pl : List Char,
      hasSub "\"data-testid\":".toList pl = false →
      hasSub "'data-testid':".toList pl = false →
      hasSub "required:".toList pl = false →
      hasSub "disabled:".toList pl = false →
      hasSub "size:".toList pl = false →
      hasSub "className:".toList pl = false →
      hasSub "htmlFor:".toList pl = true →
      classifyProp pl = some ("htmlFor=".toList ++ stripChars (colonSeg1 pl)))
  ∧ (∀ pl : List Char,
      hasSub "\"data-testid\":".toList pl = false →
      hasSub "'data-testid':".toList pl = false →
      hasSub "required:".toList pl = false →
      hasSub "disabled:".toList pl = false →
      hasSub "size:".toList pl = false →
      hasSub "className:".toList pl = false →
      hasSub "htmlFor:".toList pl = false →
      hasSub "id:".toList pl = true →
      classifyProp pl = some ("id=".toList ++ stripChars (colonSeg1 pl)))
  ∧ (∀ pl : List Char,
      hasSub "\"data-testid\":".toList pl = false →
      hasSub "'data-testid':".toList pl = false →
      hasSub "required:".toList pl = false →
      hasSub "disabled:".toList pl = false →
      hasSub "size:".toList pl = false →
      hasSub "className:".toList pl = false →
      hasSub "htmlFor:".toList pl = false →
      hasSub "id:".toList pl = false →
      (hasSub "\"aria-label\":".toList pl = true ∨
        hasSub "'aria-label':".toList pl = true) →
      classifyProp pl = some ("aria-label=".toList ++ stripChars (colonSeg1 pl)))
  ∧ (∀ pl : List Char,
      hasSub "\"data-testid\":".toList pl = false →
      hasSub "'data-testid':".toList pl = false →
      hasSub "required:".toList pl = false →
      hasSub "disabled:".toList pl = false →
      hasSub "size:".toList pl = false →
      hasSub "className:".toList pl = false →
      hasSub "htmlFor:".toList pl = false →
      hasSub "id:".toList pl = false →
      hasSub "\"aria-label\":".toList pl = false →
      hasSub "'aria-label':".toList pl = false →
      (hasSub "\"aria-describedby\":".toList pl = true ∨
        hasSub "'aria-describedby':".toList pl = true) →
      classifyProp pl = some ("aria-describedby=".toList ++ stripChars (colonSeg1 pl)))
  ∧ (∀ l : List Char, (∀ c ∈ afterColon l, c ≠ ':') → colonSeg1 l = afterColon l) := by
  refine ⟨?_, ?_, ?_, ?_, ?_, ?_, ?_, ?_⟩
  · intro pl h
    unfold classifyProp
    rcases h with h | h <;> rw [h] <;> simp
  · intro pl h1 h2 h3 h4 h5
    unfold classifyProp
    rw [h1, h2, h3, h4, h5]
    simp
  · intro pl h1 h2 h3 h4 h5 h6
    unfold classifyProp
    rw [h1, h2, h3, h4, h5, h6]
    simp
  · intro pl h1 h2 h3 h4 h5 h6 h7
    unfold classifyProp
    rw [h1, h2, h3, h4, h5, h6, h7]
    simp
  · intro pl h1 h2 h3 h4 h5 h6 h7 h8
    unfold classifyProp
    rw [h1, h2, h3, h4, h5, h6, h7, h8]
    simp
  · intro pl h1 h2 h3 h4 h5 h6 h7 h8 h9
    unfold classifyProp
    rw [h1, h2, h3, h4, h5, h6, h7, h8]
    rcases h9 with h9 | h9 <;> rw [h9] <;> simp
  · intro pl h1 h2 h3 h4 h5 h6 h7 h8 h9 h10 h11
    unfold classifyProp
    rw [h1, h2, h3, h4, h5, h6, h7, h8, h9, h10]
    rcases h11 with h11 | h11 <;> rw [h11] <;> simp
  · intro l h
    unfold colonSeg1
    exact takeWhileAll fun c hc => by simp [notColon, h c hc]

/-- Witness for the amended C5: the `aria-label` branch on the
counterexample's own line, and a value with no second colon taken in
full. -/
theorem c5_amended_value_between_colons_witness :
    classifyProp "\"aria-label\": \"a: b\"".toList =
      some ("aria-label=".toList ++
        stripChars (colonSeg1 "\"aria-label\": \"a: b\"".toList)) ∧
    colonSeg1 "x: y".toList = afterColon "x: y".toList :=
  ⟨c5_amended_value_between_colons.2.2.2.2.2.1 "\"aria-label\": \"a: b\"".toList
      (by decide) (by decide) (by decide) (by decide) (by decide) (by decide)
      (by decide) (by decide) (Or.inl (by decide)),
    c5_amended_value_between_colons.2.2.2.2.2.2.2 "x: y".toList (by decide)⟩

/-- C6: the recognized-key checks run by substring containment in the
fixed order of the code and the first match wins: any line containing the
substring `id:` on which the seven earlier checks fail is classified as
`id` — in particular the unquoted line `data-testid: value` is emitted as
`id=value`, not as a `data-testid` attribute — and an earlier key beats a
textually earlier `id:` occurrence on the same line. -/
theorem c6_fixed_priority_first_match :
    (∀ pl : List Char,
      hasSub "\"data-testid\":".toList pl = false →
      hasSub "'data-testid':".toList pl = false →
      hasSub "required:".toList pl = false →
      hasSub "disabled:".toList pl = false →
      hasSub "size:".toList pl = false →
      hasSub "className:".toList pl = false →
      hasSub "htmlFor:".toList pl = false →
      hasSub "id:".toList pl = true →
      classifyProp pl = some ("id=".toList ++ stripChars (colonSeg1 pl)))
  ∧ processProp "data-testid: value".toList = some "id=value".toList
  ∧ processProp "data-testid: value".toList ≠ some "data-testid=value".toList
  ∧ processProp "uid: required: x".toList = some "required=\x7brequired\x7d".toList := by
  refine ⟨?_, by decide, by decide, by decide⟩
  intro pl h1 h2 h3 h4 h5 h6 h7 h8
  unfold classifyProp
  rw [h1, h2, h3, h4, h5, h6, h7, h8]
  simp

/-- Witness for C6: `gridid: 5` contains the substring `id:` and no
earlier key, so it is classified as `id`. -/
theorem c6_fixed_priority_first_match_witness :
    classifyProp "gridid: 5".toList =
      some ("id=".toList ++ stripChars (colonSeg1 "gridid: 5".toList)) :=
  c6_fixed_priority_first_match.1 "gridid: 5".toList (by decide) (by decide)
    (by decide) (by decide) (by decide) (by decide) (by decide) (by decide)

/-- C7: when the structured match succeeds but every property-bag line is
unrecognized, the attribute list is empty (the lines are silently
dropped) and the span is still rewritten in the single-line layout with
the tag and the literal child text. -/
theorem c7_unrecognized_props_dropped {span : List (List Char)}
    {propsRaw children : List Char}
    (hm : searchStruct (joinNl span) = some (propsRaw, children))
    (h : ∀ raw ∈ splitNl (stripChars propsRaw), processProp raw = none) :
    (splitNl (stripChars propsRaw)).filterMap processProp = [] ∧
    processSpan span =
      [indentStr ++ "render(<Label ".toList ++
        '>' :: (children ++ "</Label>);".toList)] := by
  have hnil : (splitNl (stripChars propsRaw)).filterMap processProp = [] :=
    List.filterMap_eq_nil_iff.mpr h
  refine ⟨hnil, ?_⟩
  simp only [processSpan, hm, hnil]
  simp [buildJsx, joinSpace]

/-- Witness for C7 on a three-line span whose only property is the
unrecognized key `unknown`. -/
theorem c7_unrecognized_props_dropped_witness :
    (splitNl (stripChars "\n  unknown: 1,\n".toList)).filterMap processProp = [] ∧
    processSpan ["createElement(Label, \x7b".toList, "  unknown: 1,".toList,
        "\x7d, \"Hi\")".toList] =
      [indentStr ++ "render(<Label ".toList ++
        '>' :: ("Hi".toList ++ "</Label>);".toList)] :=
  c7_unrecognized_props_dropped (by decide) (by decide)

end ConvertLabelTests
